import Mathlib

/-!
Shallow embedding of `loadbalancer.go` from the repository
iku50/goloadbalancer, together with proofs about its round-robin
peer-selection core, its health-check step and its HTTP handler.

Modelling conventions:
* A Go `*Backend` pointer is identified with the backend's index in the
  pool slice: the backends are allocated once at construction and never
  moved, so pointer identity coincides with slice position.
* Go `uint64` arithmetic is `Nat` reduced modulo `U64 = 2 ^ 64`.
* A Go runtime panic (the integer division by zero that `NextIndex`
  performs on an empty pool) is the `none` case of an `Option` result,
  and it propagates to callers exactly as a panic unwinds.
* The `sync.RWMutex` / `sync/atomic` primitives make each operation
  observe a consistent state; the embedding is the sequential semantics
  of one whole operation at a time, with liveness held fixed during a
  call, which is the regime the claims quantify over.
* Network effects (`net.DialTimeout` inside `isAliveCheck`) are
  abstracted as a probe function `String → Bool` supplied to the
  health-check step.
-/

namespace LB

/-- Go struct `Backend` (loadbalancer.go lines 19-29): the backend's URL
(kept as a string) and its mutable `Alive` flag.  The `ReverseProxy`
field and the mutex are HTTP plumbing and synchronisation with no state
relevant to the claims, so they are not part of the value. -/
structure Backend where
  URL : String
  Alive : Bool
  deriving DecidableEq

/-- Go method `Backend.IsAlive` (lines 70-75): read the `Alive` flag
under the read lock. -/
def Backend.IsAlive (b : Backend) : Bool := b.Alive

/-- Go method `Backend.SetAlive` (lines 63-67): write the `Alive` flag
under the write lock. -/
def Backend.SetAlive (b : Backend) (alive : Bool) : Backend := ⟨b.URL, alive⟩

/-- Go struct `ServerPool` (lines 32-37): the fixed backend slice and the
shared rotation cursor `current` (a `uint64`, here a `Nat` kept below
`U64`). -/
structure ServerPool where
  backends : List Backend
  current : Nat
  deriving DecidableEq

/-- Modulus of Go `uint64` arithmetic. -/
def U64 : Nat := 2 ^ 64

/-- Go method `ServerPool.NextIndex` (lines 40-43):
`int(atomic.AddUint64(&s.current, 1) % uint64(len(s.backends)))`.
The atomic add is the `% U64` increment of the cursor; the result is the
new cursor value reduced modulo the pool size.  `none` models the Go
runtime panic `integer divide by zero` raised by `% uint64(0)` when the
pool is empty. -/
def ServerPool.NextIndex (s : ServerPool) : Option (Nat × ServerPool) :=
  let cur := (s.current + 1) % U64
  if s.backends.length = 0 then none
  else some (cur % s.backends.length, ⟨s.backends, cur⟩)

/-- Liveness of the backend at position `k` of the slice: the value of
`s.backends[k].IsAlive()` (false when `k` is out of range; the scan only
ever uses in-range positions). -/
def aliveAt (bs : List Backend) (k : Nat) : Bool :=
  match bs[k]? with
  | some b => b.IsAlive
  | none => false

/-- The scan loop of `NextPeer` (lines 49-58): starting at absolute loop
counter `i` with `fuel` iterations remaining, return the first absolute
counter value whose backend (at slot `i % len`) is alive.  `NextPeer`
runs it with `fuel = len(backends)`, one full pass around the ring. -/
def scanFrom (bs : List Backend) (i : Nat) : Nat → Option Nat
  | 0 => none
  | fuel + 1 =>
    if aliveAt bs (i % bs.length) then some i
    else scanFrom bs (i + 1) fuel

/-- Go method `ServerPool.NextPeer` (lines 46-60).  The inner `Option Nat`
is the returned `*Backend` (identified by its index, `none` for Go
`nil`); the outer `Option` models the panic inherited from `NextIndex`
on an empty pool.  When the first live backend is found at a loop
counter `i` different from `next`, its slot index is stored into the
cursor (`atomic.StoreUint64`, line 54) before returning. -/
def ServerPool.NextPeer (s : ServerPool) : Option (Option Nat × ServerPool) :=
  match s.NextIndex with
  | none => none
  | some (next, s1) =>
    match scanFrom s1.backends next s1.backends.length with
    | some i =>
      some (some (i % s1.backends.length),
        if i ≠ next then ⟨s1.backends, i % s1.backends.length⟩ else s1)
    | none => some (none, s1)

/-- The start slot `next` that `NextPeer` obtains from its `NextIndex`
call on pool state `s`. -/
def startOf (s : ServerPool) : Nat :=
  ((s.current + 1) % U64) % s.backends.length

/-- Dynamic value stored in a request context under `AttemptsKey`: either
a Go `int` or a value of some other dynamic type. -/
inductive CtxValue where
  | intVal (n : Int)
  | otherVal (tag : String)
  deriving DecidableEq

/-- The slice of an inbound `*http.Request` that the handler reads: the
result of `r.Context().Value(AttemptsKey)`, with `none` for a context
carrying no value under `AttemptsKey`. -/
structure Request where
  attemptsCtx : Option CtxValue
  deriving DecidableEq

/-- Go function `GetAttemptsFromContext` (lines 112-117): the type
assertion `.(int)` succeeds exactly on an `int` value; every other case
(missing key or non-int value) yields 0. -/
def GetAttemptsFromContext (r : Request) : Int :=
  match r.attemptsCtx with
  | some (CtxValue.intVal n) => n
  | _ => 0

/-- Go constant `http.StatusServiceUnavailable`. -/
def StatusServiceUnavailable : Nat := 503

/-- Observable outcome of one handler call: either the request was
proxied to the backend at index `idx`, or an error response with the
given status code was written. -/
inductive HttpResponse where
  | proxied (idx : Nat)
  | error (status : Nat)
  deriving DecidableEq

/-- Go method `ServerPool.LbHandlerWithHealthCheck` (lines 92-104).  The
`Bool` component records whether `NextPeer` was consulted during the
call; the outer `Option` models the panic `NextPeer` raises on an empty
pool. -/
def ServerPool.LbHandlerWithHealthCheck (s : ServerPool) (r : Request) :
    Option (HttpResponse × Bool × ServerPool) :=
  if GetAttemptsFromContext r > 3 then
    some (HttpResponse.error StatusServiceUnavailable, false, s)
  else
    match s.NextPeer with
    | none => none
    | some (some idx, s1) => some (HttpResponse.proxied idx, true, s1)
    | some (none, s1) =>
      some (HttpResponse.error StatusServiceUnavailable, true, s1)

/-- Go `time.Second` expressed in nanoseconds, the unit of
`time.Duration`. -/
def timeSecond : Nat := 1000000000

/-- Timeout of the reachability probe: `timeout := 2 * time.Second` in
`isAliveCheck` (line 124). -/
def probeTimeout : Nat := 2 * timeSecond

/-- Tick interval of the health monitor:
`time.NewTicker(time.Second * 2)` in `HealthCheck` (line 136). -/
def healthCheckInterval : Nat := timeSecond * 2

/-- One tick of the loop body of `ServerPool.HealthCheck` (lines
139-147): sequentially probe every backend and `SetAlive` the outcome.
The network call `isAliveCheck(b.URL)` is abstracted as `probe b.URL`. -/
def healthCheckTick (probe : String → Bool) (s : ServerPool) : ServerPool :=
  ⟨s.backends.map (fun b => b.SetAlive (probe b.URL)), s.current⟩

/-- URL of the backend at position `k` (the empty string out of range). -/
def urlAt (bs : List Backend) (k : Nat) : String :=
  match bs[k]? with
  | some b => b.URL
  | none => ""

/-- A pool of one alive backend, used to instantiate theorems. -/
def onePool : ServerPool := ⟨[⟨"a", true⟩], 0⟩

/-- A pool of three alive backends whose cursor holds the maximum
`uint64` value, about to wrap. -/
def wrapPool : ServerPool := ⟨[⟨"a", true⟩, ⟨"b", true⟩, ⟨"c", true⟩], U64 - 1⟩

/-- A request whose context carries the attempt count 4, over the cap. -/
def reqOver : Request := ⟨some (CtxValue.intVal 4)⟩

/-- A request whose context carries the attempt count 0. -/
def reqZero : Request := ⟨some (CtxValue.intVal 0)⟩

/-- A request whose context carries no value under `AttemptsKey`. -/
def reqNone : Request := ⟨none⟩

/-- Unfolding of `NextPeer` on a nonempty pool: the call never panics,
starts its scan at `startOf s`, and its two outcomes are the two branches
of the scan. -/
theorem NextPeer_eq (s : ServerPool) (hn : ¬ s.backends.length = 0) :
    s.NextPeer =
      match scanFrom s.backends (startOf s) s.backends.length with
      | some i =>
        some (some (i % s.backends.length),
          if i ≠ startOf s then ⟨s.backends, i % s.backends.length⟩
          else ⟨s.backends, (s.current + 1) % U64⟩)
      | none => some (none, ⟨s.backends, (s.current + 1) % U64⟩) := by
  unfold ServerPool.NextPeer ServerPool.NextIndex startOf
  rw [if_neg hn]

/-- On a nonempty pool `NextPeer` never panics: it returns some result
(possibly the `nil` backend). -/
theorem NextPeer_total (s : ServerPool) (hn : 1 ≤ s.backends.length) :
    ∃ res s1, s.NextPeer = some (res, s1) := by
  rw [NextPeer_eq s (by omega)]
  cases hscan : scanFrom s.backends (startOf s) s.backends.length with
  | none => exact ⟨none, _, rfl⟩
  | some i =>
    exact ⟨some (i % s.backends.length),
      if i ≠ startOf s then ⟨s.backends, i % s.backends.length⟩
      else ⟨s.backends, (s.current + 1) % U64⟩, rfl⟩

/-- When the attempt count is at or below the cap, the handler consults
`NextPeer` and maps its answer to a proxied request or a 503 error. -/
theorem handler_consults (s : ServerPool) (r : Request)
    (h : GetAttemptsFromContext r ≤ 3) (hn : 1 ≤ s.backends.length) :
    ∃ res s1, s.NextPeer = some (res, s1) ∧
      s.LbHandlerWithHealthCheck r = some
        ((match res with
          | some idx => HttpResponse.proxied idx
          | none => HttpResponse.error StatusServiceUnavailable), true, s1) := by
  obtain ⟨res, s1, heq⟩ := NextPeer_total s hn
  refine ⟨res, s1, heq, ?_⟩
  unfold ServerPool.LbHandlerWithHealthCheck
  rw [if_neg (not_lt.mpr h), heq]
  cases res <;> rfl

/-- One health tick sets the liveness of slot `i` to the probe's verdict
on that backend's address. -/
theorem aliveAt_tick (p : String → Bool) (bs : List Backend) (i : Nat)
    (h : i < bs.length) :
    aliveAt (bs.map (fun b => b.SetAlive (p b.URL))) i = p (urlAt bs i) := by
  have hb : bs[i]? = some bs[i] := List.getElem?_eq_getElem h
  simp [aliveAt, urlAt, List.getElem?_map, hb, Backend.SetAlive, Backend.IsAlive]

/-- A health tick never changes a backend's address. -/
theorem urlAt_tick (p : String → Bool) (bs : List Backend) (i : Nat)
    (h : i < bs.length) :
    urlAt (bs.map (fun b => b.SetAlive (p b.URL))) i = urlAt bs i := by
  have hb : bs[i]? = some bs[i] := List.getElem?_eq_getElem h
  simp [urlAt, List.getElem?_map, hb, Backend.SetAlive]

/-- A successful scan returns the least loop counter in the window whose
slot is alive: bounds, liveness at the hit, and deadness strictly before
it. -/
theorem scanFrom_some_spec (bs : List Backend) :
    ∀ fuel i r, scanFrom bs i fuel = some r →
      i ≤ r ∧ r < i + fuel ∧ aliveAt bs (r % bs.length) = true ∧
      ∀ j, i ≤ j → j < r → aliveAt bs (j % bs.length) = false := by
  intro fuel
  induction fuel with
  | zero => intro i r h; simp [scanFrom] at h
  | succ fuel ih =>
    intro i r h
    by_cases ha : aliveAt bs (i % bs.length) = true
    · rw [scanFrom, if_pos ha] at h
      obtain rfl : i = r := Option.some.inj h
      exact ⟨Nat.le_refl i, by omega, ha, fun j h1 h2 => absurd h1 (by omega)⟩
    · rw [scanFrom, if_neg ha] at h
      obtain ⟨h1, h2, h3, h4⟩ := ih (i + 1) r h
      refine ⟨by omega, by omega, h3, fun j hj1 hj2 => ?_⟩
      rcases Nat.eq_or_lt_of_le hj1 with rfl | hj
      · exact Bool.eq_false_iff.mpr ha
      · exact h4 j hj hj2

/-- A failed scan means every slot met in the window is dead. -/
theorem scanFrom_none_spec (bs : List Backend) :
    ∀ fuel i, scanFrom bs i fuel = none →
      ∀ j, i ≤ j → j < i + fuel → aliveAt bs (j % bs.length) = false := by
  intro fuel
  induction fuel with
  | zero => intro i _ j h1 h2; omega
  | succ fuel ih =>
    intro i h j h1 h2
    by_cases ha : aliveAt bs (i % bs.length) = true
    · rw [scanFrom, if_pos ha] at h; exact absurd h (by simp)
    · rw [scanFrom, if_neg ha] at h
      rcases Nat.eq_or_lt_of_le h1 with rfl | hj
      · exact Bool.eq_false_iff.mpr ha
      · exact ih (i + 1) h j hj (by omega)

/-- Any window of `n` consecutive loop counters starting anywhere covers
every slot `m < n` of the ring. -/
theorem exists_offset_mod (n i m : Nat) (hn : 0 < n) (hm : m < n) :
    ∃ j, j < n ∧ (i + j) % n = m := by
  have h1 : i % n < n := Nat.mod_lt _ hn
  refine ⟨(m + n - i % n) % n, Nat.mod_lt _ hn, ?_⟩
  have e1 : i + (m + n - i % n) % n ≡ i % n + (m + n - i % n) [MOD n] :=
    Nat.ModEq.add (Nat.mod_modEq i n).symm (Nat.mod_modEq _ n)
  have h2 : i % n + (m + n - i % n) = m + n := by omega
  rw [h2] at e1
  have e3 : (m + n) % n = m % n := Nat.add_mod_right m n
  have e4 : (i + (m + n - i % n) % n) % n = m % n := e1.trans e3
  rwa [Nat.mod_eq_of_lt hm] at e4

/-- C2: on a pool constructed with zero backends, `NextIndex` evaluates
`% uint64(0)`, the Go integer-division-by-zero panic (modelled as
`none`), and `NextPeer` inherits that panic — the calls do not complete
with an empty result as the claim requires. -/
theorem C2_empty_pool_panics :
    ServerPool.NextIndex ⟨[], 0⟩ = none ∧ ServerPool.NextPeer ⟨[], 0⟩ = none :=
  ⟨rfl, rfl⟩

/-- C6: for a nonempty pool, `NextIndex` returns exactly the wrapped
counter `(current + 1) mod 2^64` reduced modulo the pool size, stores the
wrapped counter, and the returned index is always a valid position — so
counter overflow never breaks the modulo invariant. -/
theorem C6_nextIndex_wrap (s : ServerPool) (h : 1 ≤ s.backends.length) :
    s.NextIndex = some (((s.current + 1) % U64) % s.backends.length,
      ⟨s.backends, (s.current + 1) % U64⟩) ∧
    ((s.current + 1) % U64) % s.backends.length < s.backends.length := by
  constructor
  · unfold ServerPool.NextIndex
    rw [if_neg (by omega)]
  · exact Nat.mod_lt _ (by omega)

/-- C6 witness: the theorem applied to a pool of three backends whose
cursor holds the maximum `uint64` value. -/
theorem C6_nextIndex_wrap_witness :
    1 ≤ wrapPool.backends.length ∧
    (wrapPool.NextIndex = some (((wrapPool.current + 1) % U64) % wrapPool.backends.length,
      ⟨wrapPool.backends, (wrapPool.current + 1) % U64⟩) ∧
    ((wrapPool.current + 1) % U64) % wrapPool.backends.length < wrapPool.backends.length) :=
  ⟨by decide, C6_nextIndex_wrap wrapPool (by decide)⟩

/-- C7: after a health tick with probe `p1`, the liveness of every
backend equals exactly `p1`'s verdict on its address, whatever the prior
liveness was; after a second tick with probe `p2` it equals exactly
`p2`'s verdict — the most recent probe alone decides, with no hysteresis
or consecutive-failure threshold. -/
theorem C7_health_tick (s : ServerPool) (p1 p2 : String → Bool) (i : Nat)
    (h : i < s.backends.length) :
    aliveAt (healthCheckTick p1 s).backends i = p1 (urlAt s.backends i) ∧
    aliveAt (healthCheckTick p2 (healthCheckTick p1 s)).backends i
      = p2 (urlAt s.backends i) := by
  have h1 : i < ((healthCheckTick p1 s).backends).length := by
    simpa [healthCheckTick] using h
  constructor
  · exact aliveAt_tick p1 s.backends i h
  · calc aliveAt (healthCheckTick p2 (healthCheckTick p1 s)).backends i
        = aliveAt (((healthCheckTick p1 s).backends).map
            (fun b => b.SetAlive (p2 b.URL))) i := rfl
      _ = p2 (urlAt (healthCheckTick p1 s).backends i) := aliveAt_tick p2 _ i h1
      _ = p2 (urlAt (s.backends.map (fun b => b.SetAlive (p1 b.URL))) i) := rfl
      _ = p2 (urlAt s.backends i) := by rw [urlAt_tick p1 s.backends i h]

/-- C7 witness: the theorem applied to a one-backend pool that starts
dead, with a failing probe followed by a succeeding probe. -/
theorem C7_health_tick_witness :
    0 < onePool.backends.length ∧
    (aliveAt (healthCheckTick (fun _ => false) onePool).backends 0
      = (fun _ => false) (urlAt onePool.backends 0) ∧
    aliveAt (healthCheckTick (fun _ => true)
        (healthCheckTick (fun _ => false) onePool)).backends 0
      = (fun _ => true) (urlAt onePool.backends 0)) :=
  ⟨by decide, C7_health_tick onePool (fun _ => false) (fun _ => true) 0 (by decide)⟩

/-- C8 counterexample: the probe timeout is not strictly shorter than the
monitor's tick interval — both constants are exactly 2 seconds. -/
theorem C8_counterexample :
    probeTimeout = 2 * timeSecond ∧ healthCheckInterval = 2 * timeSecond ∧
    ¬ probeTimeout < healthCheckInterval := by
  refine ⟨rfl, rfl, ?_⟩
  decide

/-- C8 amended: the probe timeout is bounded and equal to the tick
interval (2 seconds each), hence not longer than the interval but also
not strictly shorter. -/
theorem C8_timeout_eq_interval :
    probeTimeout ≤ healthCheckInterval ∧ probeTimeout = healthCheckInterval := by
  constructor <;> decide

/-- C9: a request whose attempt count exceeds the cap of 3 is answered
with a 503 without consulting `NextPeer` (the pool state is untouched);
a request at or below the cap consults `NextPeer` and is either proxied
to the returned backend or answered with a 503 when `NextPeer` returns
`nil`. -/
theorem C9_handler_cap (s : ServerPool) (r1 r2 : Request)
    (h1 : GetAttemptsFromContext r1 > 3) (h2 : GetAttemptsFromContext r2 ≤ 3)
    (hn : 1 ≤ s.backends.length) :
    s.LbHandlerWithHealthCheck r1
      = some (HttpResponse.error StatusServiceUnavailable, false, s) ∧
    ∃ res s1, s.NextPeer = some (res, s1) ∧
      s.LbHandlerWithHealthCheck r2 = some
        ((match res with
          | some idx => HttpResponse.proxied idx
          | none => HttpResponse.error StatusServiceUnavailable), true, s1) := by
  constructor
  · unfold ServerPool.LbHandlerWithHealthCheck
    rw [if_pos h1]
  · exact handler_consults s r2 h2 hn

/-- C9 witness: the theorem applied to a one-backend pool with a request
at attempt count 4 and a request at attempt count 0. -/
theorem C9_handler_cap_witness :
    GetAttemptsFromContext reqOver > 3 ∧ GetAttemptsFromContext reqZero ≤ 3 ∧
    1 ≤ onePool.backends.length ∧
    (onePool.LbHandlerWithHealthCheck reqOver
      = some (HttpResponse.error StatusServiceUnavailable, false, onePool) ∧
    ∃ res s1, onePool.NextPeer = some (res, s1) ∧
      onePool.LbHandlerWithHealthCheck reqZero = some
        ((match res with
          | some idx => HttpResponse.proxied idx
          | none => HttpResponse.error StatusServiceUnavailable), true, s1)) :=
  ⟨by decide, by decide, by decide,
    C9_handler_cap onePool reqOver reqZero (by decide) (by decide) (by decide)⟩

/-- In range, `aliveAt` is the `IsAlive` of the indexed backend. -/
theorem aliveAt_eq (bs : List Backend) (k : Nat) (hk : k < bs.length) :
    aliveAt bs k = (bs[k]).IsAlive := by
  rw [aliveAt, List.getElem?_eq_getElem hk]

/-- Existence of a live backend, phrased through `aliveAt`. -/
theorem exists_alive_iff (bs : List Backend) :
    (∃ b ∈ bs, b.IsAlive = true) ↔
      ∃ k, k < bs.length ∧ aliveAt bs k = true := by
  constructor
  · rintro ⟨b, hb, ha⟩
    obtain ⟨k, hk, rfl⟩ := List.mem_iff_getElem.mp hb
    exact ⟨k, hk, by rw [aliveAt_eq bs k hk]; exact ha⟩
  · rintro ⟨k, hk, ha⟩
    rw [aliveAt_eq bs k hk] at ha
    exact ⟨bs[k], List.getElem_mem hk, ha⟩

/-- All backends dead, phrased through `aliveAt`. -/
theorem all_dead_iff (bs : List Backend) :
    (∀ b ∈ bs, b.IsAlive = false) ↔
      ∀ k, k < bs.length → aliveAt bs k = false := by
  constructor
  · intro hall k hk
    rw [aliveAt_eq bs k hk]
    exact hall _ (List.getElem_mem hk)
  · intro hall b hb
    obtain ⟨k, hk, rfl⟩ := List.mem_iff_getElem.mp hb
    rw [← aliveAt_eq bs k hk]
    exact hall k hk

/-- The pool of the spec scenario: `[A(dead), B(alive), C(alive)]` with
the cursor at 0. -/
def abcPool : ServerPool := ⟨[⟨"A", false⟩, ⟨"B", true⟩, ⟨"C", true⟩], 0⟩

/-- A pool `[dead, alive]` whose cursor holds 5. -/
def storePool : ServerPool := ⟨[⟨"a", false⟩, ⟨"b", true⟩], 5⟩

/-- C4: whenever the scan finds its first live backend at a loop counter
`i` other than `next`, `NextPeer` stores that backend's slot index into
the shared cursor before returning it; and in the spec scenario
`[A(dead), B(alive), C(alive)]` with cursor 0, the first call returns B
(index 1) and leaves the cursor at B's index 1, not at 0. -/
theorem C4_cursor_store (s : ServerPool) (h : 1 ≤ s.backends.length) :
    (∀ i, scanFrom s.backends (startOf s) s.backends.length = some i →
      i ≠ startOf s →
      s.NextPeer = some (some (i % s.backends.length),
        ⟨s.backends, i % s.backends.length⟩)) ∧
    abcPool.NextPeer = some (some 1, ⟨abcPool.backends, 1⟩) ∧ (1 : Nat) ≠ 0 := by
  refine ⟨?_, by decide, by decide⟩
  intro i hscan hne
  rw [NextPeer_eq s (by omega), hscan]
  simp [hne]

/-- C4 witness: the theorem applied to the pool `[dead, alive]` with
cursor 5, where the scan starts at slot 0 and finds the live backend at
loop counter 1 ≠ 0, so the store fires. -/
theorem C4_cursor_store_witness :
    1 ≤ storePool.backends.length ∧
    ((∀ i, scanFrom storePool.backends (startOf storePool) storePool.backends.length
        = some i → i ≠ startOf storePool →
      storePool.NextPeer = some (some (i % storePool.backends.length),
        ⟨storePool.backends, i % storePool.backends.length⟩)) ∧
    abcPool.NextPeer = some (some 1, ⟨abcPool.backends, 1⟩) ∧ (1 : Nat) ≠ 0) :=
  ⟨by decide, C4_cursor_store storePool (by decide)⟩

/-- C5 counterexample: on the pool `[dead, alive]` with cursor 5, one
`NextPeer` call reads the counter as 5 (incrementing it to 6) and then
stores the found backend's index 1 — writing a value smaller than the
one it read although the counter was nowhere near the wrap point, so the
cursor is not monotonically incremented across operations. -/
theorem C5_counterexample :
    storePool.current = 5 ∧
    storePool.NextPeer = some (some 1, ⟨storePool.backends, 1⟩) ∧
    (1 : Nat) < 5 ∧ storePool.current ≠ U64 - 1 :=
  ⟨rfl, by decide, by decide, by decide⟩

/-- C5 amended: `NextIndex` alone is monotone — away from the wrap it
writes exactly the value it read plus one; `NextPeer`'s conditional
store, however, writes the found backend's slot index, which can be
smaller than the counter value read (see the counterexample). -/
theorem C5_nextIndex_monotone (s : ServerPool) (h : 1 ≤ s.backends.length)
    (hc : s.current + 1 < U64) :
    s.NextIndex = some ((s.current + 1) % s.backends.length,
      ⟨s.backends, s.current + 1⟩) ∧ s.current < s.current + 1 := by
  have e : (s.current + 1) % U64 = s.current + 1 := Nat.mod_eq_of_lt hc
  constructor
  · unfold ServerPool.NextIndex
    rw [if_neg (by omega), e]
  · omega

/-- C5 witness: the amended theorem applied to the one-backend pool with
cursor 0. -/
theorem C5_nextIndex_monotone_witness :
    1 ≤ onePool.backends.length ∧ onePool.current + 1 < U64 ∧
    (onePool.NextIndex = some ((onePool.current + 1) % onePool.backends.length,
      ⟨onePool.backends, onePool.current + 1⟩) ∧
      onePool.current < onePool.current + 1) :=
  ⟨by decide, by decide, C5_nextIndex_monotone onePool (by decide) (by decide)⟩

/-- C1: with liveness held fixed, `NextPeer` on a nonempty pool scans the
full ring `start, start+1, …, start+N-1` (mod N) from `start = startOf s`
and returns the first backend whose `IsAlive` is true: whenever at least
one backend is alive it returns an alive backend at a valid index,
reached after only dead slots, and it returns `nil` exactly when every
backend in the pool is dead. -/
theorem C1_nextPeer_first_alive (s : ServerPool) (h : 1 ≤ s.backends.length) :
    ∃ res s1, s.NextPeer = some (res, s1) ∧
      ((∃ b ∈ s.backends, b.IsAlive = true) →
        ∃ idx, res = some idx ∧ idx < s.backends.length ∧
          aliveAt s.backends idx = true ∧
          ∃ i, startOf s ≤ i ∧ i < startOf s + s.backends.length ∧
            idx = i % s.backends.length ∧
            ∀ j, startOf s ≤ j → j < i →
              aliveAt s.backends (j % s.backends.length) = false) ∧
      (res = none ↔ ∀ b ∈ s.backends, b.IsAlive = false) := by
  rw [NextPeer_eq s (by omega)]
  cases hscan : scanFrom s.backends (startOf s) s.backends.length with
  | some i =>
    obtain ⟨h1, h2, h3, h4⟩ := scanFrom_some_spec s.backends _ _ _ hscan
    refine ⟨some (i % s.backends.length), _, rfl, ?_, ?_⟩
    · intro _
      exact ⟨i % s.backends.length, rfl, Nat.mod_lt _ (by omega), h3,
        i, h1, h2, rfl, h4⟩
    · constructor
      · intro hc; exact absurd hc (by simp)
      · intro hall
        exfalso
        have := (all_dead_iff s.backends).mp hall (i % s.backends.length)
          (Nat.mod_lt _ (by omega))
        rw [this] at h3
        exact Bool.false_ne_true h3
  | none =>
    have hdead : ∀ k, k < s.backends.length → aliveAt s.backends k = false := by
      intro k hk
      obtain ⟨j, hj, hjk⟩ := exists_offset_mod s.backends.length (startOf s) k
        (by omega) hk
      have := scanFrom_none_spec s.backends _ _ hscan (startOf s + j)
        (by omega) (by omega)
      rwa [hjk] at this
    refine ⟨none, _, rfl, ?_, ?_⟩
    · intro halive
      exfalso
      obtain ⟨k, hk, ha⟩ := (exists_alive_iff s.backends).mp halive
      rw [hdead k hk] at ha
      exact Bool.false_ne_true ha
    · exact ⟨fun _ => (all_dead_iff s.backends).mpr hdead, fun _ => rfl⟩

/-- C1 witness: the theorem applied to the pool
`[A(dead), B(alive), C(alive)]` with cursor 0. -/
theorem C1_nextPeer_first_alive_witness :
    1 ≤ abcPool.backends.length ∧
    (∃ res s1, abcPool.NextPeer = some (res, s1) ∧
      ((∃ b ∈ abcPool.backends, b.IsAlive = true) →
        ∃ idx, res = some idx ∧ idx < abcPool.backends.length ∧
          aliveAt abcPool.backends idx = true ∧
          ∃ i, startOf abcPool ≤ i ∧ i < startOf abcPool + abcPool.backends.length ∧
            idx = i % abcPool.backends.length ∧
            ∀ j, startOf abcPool ≤ j → j < i →
              aliveAt abcPool.backends (j % abcPool.backends.length) = false) ∧
      (res = none ↔ ∀ b ∈ abcPool.backends, b.IsAlive = false)) :=
  ⟨by decide, C1_nextPeer_first_alive abcPool (by decide)⟩

/-- A scan whose very first slot is alive stops there at once. -/
theorem scanFrom_of_alive (bs : List Backend) (i fuel : Nat) (hf : 0 < fuel)
    (ha : aliveAt bs (i % bs.length) = true) : scanFrom bs i fuel = some i := by
  obtain ⟨m, rfl⟩ : ∃ m, fuel = m + 1 := ⟨fuel - 1, by omega⟩
  rw [scanFrom, if_pos ha]

/-- On an all-alive pool away from the wrap, `NextPeer` returns the slot
`(current + 1) mod N` and just advances the counter by one (the store
branch does not fire: the hit is at `next` itself). -/
theorem NextPeer_all_alive (s : ServerPool) (h : 1 ≤ s.backends.length)
    (hall : ∀ b ∈ s.backends, b.IsAlive = true) (hc : s.current + 1 < U64) :
    s.NextPeer = some (some ((s.current + 1) % s.backends.length),
      ⟨s.backends, s.current + 1⟩) := by
  have e : (s.current + 1) % U64 = s.current + 1 := Nat.mod_eq_of_lt hc
  have hstart : startOf s = (s.current + 1) % s.backends.length := by
    rw [startOf, e]
  have hlt : startOf s < s.backends.length := by
    rw [hstart]; exact Nat.mod_lt _ (by omega)
  have halive : aliveAt s.backends (startOf s % s.backends.length) = true := by
    rw [Nat.mod_eq_of_lt hlt, aliveAt_eq _ _ hlt]
    exact hall _ (List.getElem_mem hlt)
  rw [NextPeer_eq s (by omega),
    scanFrom_of_alive s.backends (startOf s) s.backends.length (by omega) halive]
  simp [Nat.mod_eq_of_lt hlt, hstart, e]

/-- Iterated `NextPeer`: perform `k` successive calls, collecting the
indices of the returned backends in order; the result is `none` when any
call panics or returns the `nil` backend. -/
def nextPeerRun : ServerPool → Nat → Option (List Nat × ServerPool)
  | s, 0 => some ([], s)
  | s, k + 1 =>
    match s.NextPeer with
    | some (some idx, s1) =>
      match nextPeerRun s1 k with
      | some (l, s2) => some (idx :: l, s2)
      | none => none
    | _ => none

/-- Reductions of `k` consecutive counter values modulo the pool size are
pairwise distinct below the pool size. -/
theorem mod_window_inj (n c : Nat) {j1 j2 : Nat} (h1 : j1 < n) (h2 : j2 < n)
    (he : (c + j1) % n = (c + j2) % n) : j1 = j2 := by
  have e1 : j1 % n = j2 % n := Nat.ModEq.add_left_cancel' c he
  rwa [Nat.mod_eq_of_lt h1, Nat.mod_eq_of_lt h2] at e1

/-- On an all-alive pool, `k` successive `NextPeer` calls that stay below
the wrap return the slots `(current + 1) mod N, …, (current + k) mod N`
in order and leave the counter at `current + k`. -/
theorem nextPeerRun_all_alive (k : Nat) :
    ∀ s : ServerPool, 1 ≤ s.backends.length →
      (∀ b ∈ s.backends, b.IsAlive = true) → s.current + k < U64 →
      nextPeerRun s k = some
        ((List.range k).map (fun j => (s.current + 1 + j) % s.backends.length),
         ⟨s.backends, s.current + k⟩) := by
  induction k with
  | zero =>
    intro s h hall hc
    simp [nextPeerRun]
  | succ k ih =>
    intro s h hall hc
    have hih := ih ⟨s.backends, s.current + 1⟩ h hall
      (show s.current + 1 + k < U64 by omega)
    rw [nextPeerRun, NextPeer_all_alive s h hall (by omega)]
    simp only [hih]
    simp only [List.range_succ_eq_map, List.map_cons, List.map_map,
      Option.some.injEq, Prod.mk.injEq, ServerPool.mk.injEq]
    refine ⟨?_, trivial, by omega⟩
    rw [show s.current + 1 + 0 = s.current + 1 by omega]
    refine congrArg _ ?_
    apply List.map_congr_left
    intro j _
    show (s.current + 1 + 1 + j) % s.backends.length
      = (s.current + 1 + (j + 1)) % s.backends.length
    rw [show s.current + 1 + 1 + j = s.current + 1 + (j + 1) by omega]

/-- C3 (amended with the no-wrap hypothesis): on an all-alive pool of N
backends whose counter stays below the `uint64` wrap for the next N + 1
calls, N consecutive `NextPeer` calls return N distinct backends — every
backend of the pool exactly once — and the (N+1)th call returns the same
backend as the 1st. -/
theorem C3_round_robin (s : ServerPool) (h : 1 ≤ s.backends.length)
    (hall : ∀ b ∈ s.backends, b.IsAlive = true)
    (hc : s.current + s.backends.length + 1 < U64) :
    ∃ l s1, nextPeerRun s s.backends.length = some (l, s1) ∧
      l.length = s.backends.length ∧ l.Nodup ∧
      (∀ m, m < s.backends.length → m ∈ l) ∧
      ∃ idx s2, s1.NextPeer = some (some idx, s2) ∧ l.headD 0 = idx := by
  have hrun := nextPeerRun_all_alive s.backends.length s h hall (by omega)
  refine ⟨_, _, hrun, ?_, ?_, ?_, ?_⟩
  · simp
  · refine List.Nodup.map_on ?_ (List.nodup_range _)
    intro j1 hj1 j2 hj2 he
    exact mod_window_inj s.backends.length (s.current + 1)
      (List.mem_range.mp hj1) (List.mem_range.mp hj2) he
  · intro m hm
    obtain ⟨j, hj, hjm⟩ := exists_offset_mod s.backends.length (s.current + 1) m
      (by omega) hm
    exact List.mem_map.mpr ⟨j, List.mem_range.mpr hj, hjm⟩
  · refine ⟨(s.current + s.backends.length + 1) % s.backends.length, _,
      NextPeer_all_alive ⟨s.backends, s.current + s.backends.length⟩ h hall
        (by simpa using by omega), ?_⟩
    obtain ⟨m, hm⟩ : ∃ m, s.backends.length = m + 1 := ⟨s.backends.length - 1, by omega⟩
    rw [hm, List.range_succ_eq_map]
    simp only [List.map_cons, List.headD_cons]
    have e1 : s.current + 1 + 0 = s.current + 1 := by omega
    have e2 : s.current + (m + 1) + 1 = s.current + 1 + (m + 1) := by omega
    rw [e1, e2, Nat.add_mod_right]

/-- C3 counterexample: an all-alive pool of three backends whose cursor
holds `2^64 - 2`; the counter wraps during the window, the first two
calls both return backend 0, and backend 2 is never returned, so three
consecutive calls do not visit three distinct backends. -/
def cexPool : ServerPool := ⟨[⟨"a", true⟩, ⟨"b", true⟩, ⟨"c", true⟩], U64 - 2⟩

/-- C3 counterexample theorem: the claim as stated fails on `cexPool` —
all three backends are alive, yet the three consecutive `NextPeer` calls
return the index list `[0, 0, 1]`, which has a repeat. -/
theorem C3_counterexample :
    cexPool.backends.length = 3 ∧
    (∀ b ∈ cexPool.backends, b.IsAlive = true) ∧
    nextPeerRun cexPool 3 = some ([0, 0, 1], ⟨cexPool.backends, 1⟩) ∧
    ¬ ([0, 0, 1] : List Nat).Nodup :=
  ⟨rfl, by decide, by decide, by decide⟩

/-- C3 witness: the amended theorem applied to an all-alive pool of three
backends with cursor 0. -/
def allPool : ServerPool := ⟨[⟨"a", true⟩, ⟨"b", true⟩, ⟨"c", true⟩], 0⟩

/-- C3 witness theorem: the amended round-robin theorem instantiated on
`allPool`. -/
theorem C3_round_robin_witness :
    1 ≤ allPool.backends.length ∧
    (∀ b ∈ allPool.backends, b.IsAlive = true) ∧
    allPool.current + allPool.backends.length + 1 < U64 ∧
    (∃ l s1, nextPeerRun allPool allPool.backends.length = some (l, s1) ∧
      l.length = allPool.backends.length ∧ l.Nodup ∧
      (∀ m, m < allPool.backends.length → m ∈ l) ∧
      ∃ idx s2, s1.NextPeer = some (some idx, s2) ∧ l.headD 0 = idx) :=
  ⟨by decide, by decide, by decide,
    C3_round_robin allPool (by decide) (by decide) (by decide)⟩

/-- C10: a request whose context carries no value under `AttemptsKey`,
or a non-int value, yields attempt count 0, so the handler treats it as
a first attempt and consults `NextPeer` rather than rejecting it at the
cap. -/
theorem C10_attempts_default (r : Request) (s : ServerPool)
    (hr : r.attemptsCtx = none ∨ ∃ t, r.attemptsCtx = some (CtxValue.otherVal t))
    (hn : 1 ≤ s.backends.length) :
    GetAttemptsFromContext r = 0 ∧
    ∃ res s1, s.NextPeer = some (res, s1) ∧
      s.LbHandlerWithHealthCheck r = some
        ((match res with
          | some idx => HttpResponse.proxied idx
          | none => HttpResponse.error StatusServiceUnavailable), true, s1) := by
  have h0 : GetAttemptsFromContext r = 0 := by
    rcases hr with h | ⟨t, h⟩ <;> simp [GetAttemptsFromContext, h]
  exact ⟨h0, handler_consults s r (by rw [h0]; decide) hn⟩

/-- C10 witness: the theorem applied to a request with an empty context
against a one-backend pool. -/
theorem C10_attempts_default_witness :
    (reqNone.attemptsCtx = none ∨
      ∃ t, reqNone.attemptsCtx = some (CtxValue.otherVal t)) ∧
    1 ≤ onePool.backends.length ∧
    (GetAttemptsFromContext reqNone = 0 ∧
    ∃ res s1, onePool.NextPeer = some (res, s1) ∧
      onePool.LbHandlerWithHealthCheck reqNone = some
        ((match res with
          | some idx => HttpResponse.proxied idx
          | none => HttpResponse.error StatusServiceUnavailable), true, s1)) :=
  ⟨Or.inl rfl, by decide,
    C10_attempts_default reqNone onePool (Or.inl rfl) (by decide)⟩

end LB
